import Mathlib

/-!
Shallow embedding of the inventory-and-billing backend (src/app.py).

The relational store (SQLite) is modelled as a record of tables, each a list
of rows kept in insertion order; AUTOINCREMENT primary keys are modelled by
next-id counters.  REAL money values are modelled as rationals, INTEGER
quantities as Int, TEXT as String.  Bill dates (ISO-8601 strings, which
compare lexicographically in chronological order) are modelled as Nat
timestamps.

Transactions: generate_bill commits only on success and calls rollback on
any ValueError, so the endpoint either returns the fully updated store or
the untouched original.

Foreign keys: the schema declares ON DELETE CASCADE on inventory.product_id
and on bill_items, but get_db_connection never issues PRAGMA foreign_keys,
and SQLite leaves foreign-key enforcement OFF by default; hence at runtime
DELETE FROM products does not cascade.  The embedding models the runtime
behaviour: delete_product touches only the products table.
-/

namespace App

/-- Row of the products table. -/
structure Product where
  id : Nat
  name : String
  description : Option String
  price : ℚ
  initial_quantity : Int
deriving DecidableEq, Repr

/-- Row of the inventory table: one stock batch of one product. -/
structure Batch where
  id : Nat
  product_id : Nat
  batch_number : String
  quantity : Int
deriving DecidableEq, Repr

/-- Row of the bills table. -/
structure Bill where
  id : Nat
  customer_name : String
  bill_date : Nat
  total_amount : ℚ
  discount : ℚ
  tax : ℚ
deriving DecidableEq, Repr

/-- Row of the bill_items table. -/
structure BillItem where
  id : Nat
  bill_id : Nat
  product_id : Nat
  quantity : Int
  price_at_purchase : ℚ
deriving DecidableEq, Repr

/-- The whole relational store. -/
structure DB where
  products : List Product
  inventory : List Batch
  bills : List Bill
  bill_items : List BillItem
  next_product_id : Nat
  next_inventory_id : Nat
  next_bill_id : Nat
  next_bill_item_id : Nat
deriving DecidableEq, Repr

/-- One entry of the items array of a POST /bill body.  A missing or null
product_id (falsy in Python) is modelled as 0; quantity is an integer
(non-integer JSON quantities are outside the embedding). -/
structure OrderItem where
  product_id : Nat
  quantity : Int
deriving DecidableEq, Repr

/-- The distinct ValueError messages raised inside generate_bill. -/
inductive BillError where
  | missingField : BillError
  | itemMissingField : BillError
  | invalidQuantity : Nat → BillError
  | productNotFound : Nat → BillError
  | insufficientStock : Nat → BillError
deriving DecidableEq, Repr

/-- Insertion step of an insertion sort by a boolean relation. -/
def insertLe {α : Type} (le : α → α → Bool) (x : α) : List α → List α
  | [] => [x]
  | y :: ys => if le x y then x :: y :: ys else y :: insertLe le x ys

/-- Insertion sort by a boolean relation; models an SQL ORDER BY. -/
def sortLe {α : Type} (le : α → α → Bool) : List α → List α
  | [] => []
  | x :: xs => insertLe le x (sortLe le xs)

/-- SELECT price FROM products WHERE id = ?  (fetchone). -/
def findProduct (ps : List Product) (pid : Nat) : Option Product :=
  ps.find? (fun p => p.id == pid)

/-- SELECT id, quantity FROM inventory WHERE product_id = ? ORDER BY id ASC. -/
def batches_for (inv : List Batch) (pid : Nat) : List Batch :=
  sortLe (fun a b => decide (a.id ≤ b.id)) (inv.filter (fun b => b.product_id == pid))

/-- The batch walk of generate_bill (src/app.py lines 324-337): returns the
list deducted_from_batches of (new_quantity, batch_id) pairs and the final
remaining need. -/
def walkBatches : List Batch → Int → List (Int × Nat) × Int
  | [], need => ([], need)
  | b :: rest, need =>
    if need ≤ 0 then ([], need)
    else if b.quantity ≥ need then
      let r := walkBatches rest 0
      ((b.quantity - need, b.id) :: r.1, r.2)
    else
      let r := walkBatches rest (need - b.quantity)
      ((0, b.id) :: r.1, r.2)

/-- One recorded deduction applied to the inventory table (src/app.py lines
342-346): DELETE when the recorded new quantity is 0, UPDATE otherwise. -/
def apply_deduction (inv : List Batch) (d : Int × Nat) : List Batch :=
  if d.1 == 0 then inv.filter (fun b => b.id != d.2)
  else inv.map (fun b => if b.id == d.2 then { b with quantity := d.1 } else b)

/-- All recorded deductions of one line item, applied in order. -/
def apply_deductions (inv : List Batch) (ds : List (Int × Nat)) : List Batch :=
  ds.foldl apply_deduction inv

/-- The per-item loop of generate_bill: validates each item, walks and
deducts batches, accumulates the running subtotal and the pending
bill_items rows (product_id, quantity, price snapshot). -/
def process_items : List OrderItem → List Product → List Batch → ℚ →
    List (Nat × Int × ℚ) → Except BillError (List Batch × ℚ × List (Nat × Int × ℚ))
  | [], _, inv, total, acc => .ok (inv, total, acc)
  | it :: rest, ps, inv, total, acc =>
    if it.product_id = 0 then .error .itemMissingField
    else if it.quantity ≤ 0 then .error (.invalidQuantity it.product_id)
    else
      match findProduct ps it.product_id with
      | none => .error (.productNotFound it.product_id)
      | some p =>
        let avail := batches_for inv it.product_id
        let r := walkBatches avail it.quantity
        if 0 < r.2 then .error (.insufficientStock it.product_id)
        else
          process_items rest ps (apply_deductions inv r.1)
            (total + p.price * (it.quantity : ℚ))
            (acc ++ [(it.product_id, it.quantity, p.price)])

/-- Sequential insertion of the pending bill_items rows with AUTOINCREMENT
ids starting at next_id. -/
def insert_bill_items (bill_id : Nat) : Nat → List (Nat × Int × ℚ) → List BillItem
  | _, [] => []
  | next_id, (pid, q, pr) :: rest =>
    ⟨next_id, bill_id, pid, q, pr⟩ :: insert_bill_items bill_id (next_id + 1) rest

/-- The body of the POST /bill transaction.  On success returns the updated
store, the new bill id and the final total; on ValueError the caller rolls
back, so no updated store is produced. -/
def bill_transaction (db : DB) (customer_name : String) (items : List OrderItem)
    (discount tax_rate : ℚ) (now : Nat) : Except BillError (DB × Nat × ℚ) :=
  if customer_name = "" ∨ items = [] then .error .missingField
  else
    match process_items items db.products db.inventory 0 [] with
    | .error e => .error e
    | .ok (inv, total_amount, to_insert) =>
      let final_total := total_amount * (1 - discount) * (1 + tax_rate)
      let bill_id := db.next_bill_id
      .ok ({ db with
              inventory := inv,
              bills := db.bills ++ [⟨bill_id, customer_name, now, final_total, discount, tax_rate⟩],
              bill_items := db.bill_items ++
                insert_bill_items bill_id db.next_bill_item_id to_insert,
              next_bill_id := bill_id + 1,
              next_bill_item_id := db.next_bill_item_id + to_insert.length },
            bill_id, final_total)

/-- The POST /bill endpoint: commit on success (201), rollback on
ValueError (400).  Returns the store visible to later requests, the HTTP
status, and the (bill_id, total_amount) payload when successful. -/
def generate_bill (db : DB) (customer_name : String) (items : List OrderItem)
    (discount tax_rate : ℚ) (now : Nat) : DB × Nat × Option (Nat × ℚ) :=
  match bill_transaction db customer_name items discount tax_rate now with
  | .ok (db1, bill_id, final_total) => (db1, 201, some (bill_id, final_total))
  | .error _ => (db, 400, none)

/-- The POST /products endpoint.  Inserts the product; when
initial_quantity is positive it INSERTs OR IGNOREs an INITIAL-(id) batch
and then unconditionally UPDATEs that batch by adding initial_quantity
again.  Returns (store, status, product_id). -/
def add_product (db : DB) (name : String) (description : Option String)
    (price : ℚ) (initial_quantity : Int) : DB × Nat × Nat :=
  if name = "" then (db, 400, 0)
  else if db.products.any (fun p => p.name == name) then (db, 409, 0)
  else
    let pid := db.next_product_id
    let db1 : DB := { db with
      products := db.products ++ [⟨pid, name, description, price, initial_quantity⟩],
      next_product_id := pid + 1 }
    if 0 < initial_quantity then
      let bn := "INITIAL-" ++ toString pid
      let db2 : DB :=
        if db1.inventory.any (fun b => b.product_id == pid && b.batch_number == bn)
        then db1
        else { db1 with
          inventory := db1.inventory ++ [⟨db1.next_inventory_id, pid, bn, initial_quantity⟩],
          next_inventory_id := db1.next_inventory_id + 1 }
      let db3 : DB := { db2 with
        inventory := db2.inventory.map (fun b =>
          if b.product_id == pid && b.batch_number == bn
          then { b with quantity := b.quantity + initial_quantity } else b) }
      (db3, 201, pid)
    else (db1, 201, pid)

/-- The PUT /products/(id) endpoint: updates name, description and price of
the matching row; 404 when no row matched. -/
def update_product (db : DB) (pid : Nat) (name : String)
    (description : Option String) (price : ℚ) : DB × Nat :=
  if name = "" then (db, 400)
  else
    let db1 : DB := { db with
      products := db.products.map (fun p =>
        if p.id == pid then { p with name := name, description := description, price := price }
        else p) }
    if db.products.any (fun p => p.id == pid) then (db1, 200) else (db1, 404)

/-- The DELETE /products/(id) endpoint.  Only the products row is removed:
the connection never enables PRAGMA foreign_keys, so the declared ON DELETE
CASCADE on inventory and bill_items does not fire. -/
def delete_product (db : DB) (pid : Nat) : DB × Nat :=
  let db1 : DB := { db with products := db.products.filter (fun p => p.id != pid) }
  if db.products.any (fun p => p.id == pid) then (db1, 200) else (db1, 404)

/-- The POST /inventory endpoint: merge into an existing
(product_id, batch_number) batch or insert a new one; rejects non-positive
quantities and unknown products. -/
def add_or_update_inventory (db : DB) (pid : Nat) (batch_number : String)
    (quantity : Int) : DB × Nat :=
  if pid = 0 ∨ batch_number = "" then (db, 400)
  else if quantity ≤ 0 then (db, 400)
  else if ¬ db.products.any (fun p => p.id == pid) then (db, 404)
  else
    match db.inventory.find? (fun b => b.product_id == pid && b.batch_number == batch_number) with
    | some eb =>
      ({ db with inventory := db.inventory.map (fun b =>
          if b.id == eb.id then { b with quantity := eb.quantity + quantity } else b) }, 201)
    | none =>
      ({ db with
          inventory := db.inventory ++ [⟨db.next_inventory_id, pid, batch_number, quantity⟩],
          next_inventory_id := db.next_inventory_id + 1 }, 201)

/-- The DELETE /inventory/(id) endpoint. -/
def delete_inventory_batch (db : DB) (inventory_id : Nat) : DB × Nat :=
  let db1 : DB := { db with inventory := db.inventory.filter (fun b => b.id != inventory_id) }
  if db.inventory.any (fun b => b.id == inventory_id) then (db1, 200) else (db1, 404)

/-- One rendered entry of the items array returned by GET /bills. -/
structure RenderedItem where
  quantity : Int
  price_at_purchase : ℚ
  product_name : String
  description : Option String
deriving DecidableEq, Repr

/-- The inner join of one bill_items row with products: none when the
product row is gone, in which case the join drops the line item. -/
def render_item (ps : List Product) (bi : BillItem) : Option RenderedItem :=
  match findProduct ps bi.product_id with
  | some p => some ⟨bi.quantity, bi.price_at_purchase, p.name, p.description⟩
  | none => none

/-- The items array of one bill as rendered by GET /bills. -/
def bill_items_for (db : DB) (bill_id : Nat) : List RenderedItem :=
  (db.bill_items.filter (fun bi => bi.bill_id == bill_id)).filterMap (render_item db.products)

/-- One rendered bill returned by GET /bills. -/
structure RenderedBill where
  id : Nat
  customer_name : String
  bill_date : Nat
  total_amount : ℚ
  discount : ℚ
  tax : ℚ
  items : List RenderedItem
deriving DecidableEq, Repr

/-- Serialization of one bills row with its nested items. -/
def render_bill (db : DB) (b : Bill) : RenderedBill :=
  ⟨b.id, b.customer_name, b.bill_date, b.total_amount, b.discount, b.tax,
    bill_items_for db b.id⟩

/-- The GET /bills endpoint: SELECT * FROM bills ORDER BY bill_date DESC,
then the per-bill item join. -/
def get_bills (db : DB) : List RenderedBill :=
  (sortLe (fun a b => decide (b.bill_date ≤ a.bill_date)) db.bills).map (render_bill db)

/-! ### Observables and auxiliary definitions used by the claims -/

/-- Remaining need before batch index i, for an initial need q walked over
the batch list bs. -/
def needAfter (q : Int) (bs : List Batch) (i : Nat) : Int :=
  q - ((bs.take i).map Batch.quantity).sum

/-- Total stock of one product: the sum of the quantities of all its
inventory batches. -/
def stock_of (inv : List Batch) (pid : Nat) : Int :=
  ((inv.filter (fun b => b.product_id == pid)).map Batch.quantity).sum

/-- Tests whether an order item requests more than the total stock of its
product. -/
def short_item (inv : List Batch) (it : OrderItem) : Bool :=
  decide (stock_of inv it.product_id < it.quantity)

/-- Catalog price of a product id at billing time (0 when absent). -/
def price_of (ps : List Product) (pid : Nat) : ℚ :=
  (findProduct ps pid).elim 0 Product.price

/-- Sum of price times quantity over the order, at the catalog prices. -/
def subtotal (ps : List Product) : List OrderItem → ℚ
  | [] => 0
  | it :: rest => price_of ps it.product_id * (it.quantity : ℚ) + subtotal ps rest

/-- The pending bill_items rows an order produces: one price snapshot per
item. -/
def snapshots (ps : List Product) : List OrderItem → List (Nat × Int × ℚ)
  | [] => []
  | it :: rest =>
    (it.product_id, it.quantity, price_of ps it.product_id) :: snapshots ps rest

/-- Invariant: every row present in the inventory table has strictly
positive quantity. -/
def inv_positive (db : DB) : Prop :=
  ∀ b ∈ db.inventory, 0 < b.quantity

/-- Arguments of one PUT /products/(id) request. -/
structure ProductUpdate where
  pid : Nat
  name : String
  description : Option String
  price : ℚ
deriving DecidableEq, Repr

/-- A sequence of PUT /products/(id) requests applied in order. -/
def apply_updates (db : DB) : List ProductUpdate → DB
  | [] => db
  | u :: us => apply_updates (update_product db u.pid u.name u.description u.price).1 us

/-! ### Example fixtures used by the witnesses -/

/-- Example store: one product (id 1, price 10) with two batches B1 and B2
of five units each, B1 created first. -/
def exDB : DB :=
  ⟨[⟨1, "P", none, 10, 0⟩], [⟨1, 1, "B1", 5⟩, ⟨2, 1, "B2", 5⟩], [], [], 2, 3, 1, 1⟩

/-- Example store with two products: product 1 has ten units across two
batches, product 2 has a single batch of one unit. -/
def exDB2 : DB :=
  ⟨[⟨1, "P", none, 10, 0⟩, ⟨2, "Q", some "d", 4, 0⟩],
   [⟨1, 1, "B1", 5⟩, ⟨2, 1, "B2", 5⟩, ⟨3, 2, "C1", 1⟩], [], [], 3, 4, 1, 1⟩

/-- Example store with two stored bills (dates 5 and 9) and one line item
each. -/
def exDB8 : DB :=
  ⟨[⟨1, "P", none, 10, 0⟩], [],
   [⟨1, "ann", 5, 50, 0, 0⟩, ⟨2, "ben", 9, 30, 0, 0⟩],
   [⟨1, 1, 1, 5, 10⟩, ⟨2, 2, 1, 3, 10⟩], 2, 1, 3, 3⟩

/-- Empty store. -/
def exDB9 : DB := ⟨[], [], [], [], 1, 1, 1, 1⟩

/-- Store reached by billing 7 units of product 1 on exDB (final total 70)
and then deleting product 1: the bill remains and its line item is
orphaned.  Stated literally; the witness checks the Int and String fields
of the operational result against it. -/
def exDB10 : DB :=
  ⟨[], [⟨2, 1, "B2", 3⟩], [⟨1, "alice", 100, 70, 0, 0⟩], [⟨1, 1, 1, 7, 10⟩], 2, 3, 2, 2⟩

/-- The bill stored in exDB10. -/
def exBill10 : Bill := ⟨1, "alice", 100, 70, 0, 0⟩

/-- The orphaned line item stored in exDB10. -/
def exItem10 : BillItem := ⟨1, 1, 1, 7, 10⟩

end App

namespace App

/-! ### Sorting lemmas -/

theorem insertLe_perm {α : Type} (le : α → α → Bool) (x : α) (l : List α) :
    (insertLe le x l).Perm (x :: l) := by
  induction l with
  | nil => simp [insertLe]
  | cons y ys ih =>
    simp only [insertLe]
    by_cases h : le x y = true
    · simp [h]
    · simp only [h, if_false]
      exact (ih.cons y).trans (List.Perm.swap x y ys)

theorem sortLe_perm {α : Type} (le : α → α → Bool) (l : List α) :
    (sortLe le l).Perm l := by
  induction l with
  | nil => exact List.Perm.refl _
  | cons x xs ih => exact (insertLe_perm le x (sortLe le xs)).trans (ih.cons x)

theorem insertLe_pairwise {α : Type} (le : α → α → Bool)
    (htrans : ∀ a b c, le a b = true → le b c = true → le a c = true)
    (htot : ∀ a b, le a b = true ∨ le b a = true) (x : α) (l : List α)
    (h : l.Pairwise (fun a b => le a b = true)) :
    (insertLe le x l).Pairwise (fun a b => le a b = true) := by
  induction l with
  | nil => simp [insertLe]
  | cons y ys ih =>
    rw [List.pairwise_cons] at h
    simp only [insertLe]
    by_cases hxy : le x y = true
    · simp only [hxy, if_true]
      rw [List.pairwise_cons]
      refine ⟨?_, List.pairwise_cons.mpr h⟩
      intro z hz
      rcases List.mem_cons.mp hz with rfl | hz
      · exact hxy
      · exact htrans x y z hxy (h.1 z hz)
    · simp only [hxy, Bool.false_eq_true, if_false]
      rw [List.pairwise_cons]
      refine ⟨?_, ih h.2⟩
      intro z hz
      rcases List.mem_cons.mp ((insertLe_perm le x ys).mem_iff.mp hz) with rfl | hz
      · rcases htot z y with hzy | hyz
        · exact absurd hzy hxy
        · exact hyz
      · exact h.1 z hz

theorem sortLe_pairwise {α : Type} (le : α → α → Bool)
    (htrans : ∀ a b c, le a b = true → le b c = true → le a c = true)
    (htot : ∀ a b, le a b = true ∨ le b a = true) (l : List α) :
    (sortLe le l).Pairwise (fun a b => le a b = true) := by
  induction l with
  | nil => simp [sortLe]
  | cons x xs ih => exact insertLe_pairwise le htrans htot x _ ih

theorem batches_for_perm (inv : List Batch) (pid : Nat) :
    (batches_for inv pid).Perm (inv.filter (fun b => b.product_id == pid)) :=
  sortLe_perm _ _

theorem batches_for_sorted (inv : List Batch) (pid : Nat) :
    (batches_for inv pid).Pairwise (fun a b => a.id ≤ b.id) := by
  have h := sortLe_pairwise (fun a b : Batch => decide (a.id ≤ b.id))
    (fun a b c hab hbc => by
      simp only [decide_eq_true_eq] at hab hbc ⊢
      exact le_trans hab hbc)
    (fun a b => by
      simp only [decide_eq_true_eq]
      exact Nat.le_total a.id b.id)
    (inv.filter (fun b => b.product_id == pid))
  exact h.imp (fun hab => of_decide_eq_true hab)

theorem batches_for_mem (inv : List Batch) (pid : Nat) (b : Batch)
    (hb : b ∈ batches_for inv pid) : b ∈ inv ∧ b.product_id = pid := by
  have h := (batches_for_perm inv pid).mem_iff.mp hb
  rw [List.mem_filter] at h
  exact ⟨h.1, by simpa using h.2⟩

/-! ### Batch-walk lemmas -/

theorem needAfter_zero (q : Int) (bs : List Batch) : needAfter q bs 0 = q := by
  simp [needAfter]

theorem needAfter_cons (q : Int) (b : Batch) (bs : List Batch) (i : Nat) :
    needAfter q (b :: bs) (i + 1) = needAfter (q - b.quantity) bs i := by
  simp only [needAfter, List.take_succ_cons, List.map_cons, List.sum_cons]
  ring

theorem walk_zero (bs : List Batch) : walkBatches bs 0 = ([], 0) := by
  cases bs <;> simp [walkBatches]

theorem walk_len_le (bs : List Batch) (q : Int) :
    (walkBatches bs q).1.length ≤ bs.length := by
  induction bs generalizing q with
  | nil => simp [walkBatches]
  | cons b rest ih =>
    simp only [walkBatches]
    by_cases h0 : q ≤ 0
    · simp [h0]
    · simp only [h0, if_false]
      by_cases h1 : b.quantity ≥ q
      · simp only [h1, if_true, List.length_cons]
        exact Nat.succ_le_succ (ih 0)
      · simp only [h1, if_false, List.length_cons]
        exact Nat.succ_le_succ (ih (q - b.quantity))

theorem walk_get (bs : List Batch) (q : Int) (hq : 0 ≤ q) (i : Nat)
    (hi : i < (walkBatches bs q).1.length) :
    0 < needAfter q bs i ∧
    ∃ b : Batch, bs[i]? = some b ∧
      (walkBatches bs q).1[i]? = some (max (b.quantity - needAfter q bs i) 0, b.id) := by
  induction bs generalizing q i with
  | nil => simp [walkBatches] at hi
  | cons b rest ih =>
    by_cases h0 : q ≤ 0
    · simp [walkBatches, h0] at hi
    · push_neg at h0
      by_cases h1 : b.quantity ≥ q
      · simp only [walkBatches, if_neg (not_le.mpr h0), if_pos h1, walk_zero] at hi ⊢
        match i with
        | 0 =>
          refine ⟨by simpa [needAfter_zero] using h0, b, by simp, ?_⟩
          simp only [List.getElem?_cons_zero, needAfter_zero]
          rw [max_eq_left (by omega)]
        | i + 1 =>
          simp only [List.length_cons, List.length_nil] at hi
          omega
      · simp only [walkBatches, if_neg (not_le.mpr h0), if_neg h1] at hi ⊢
        match i with
        | 0 =>
          refine ⟨by simpa [needAfter_zero] using h0, b, by simp, ?_⟩
          simp only [List.getElem?_cons_zero, needAfter_zero]
          rw [max_eq_right (by omega)]
        | i + 1 =>
          simp only [List.length_cons, Nat.add_lt_add_iff_right] at hi
          obtain ⟨hneed, c, hc, hval⟩ := ih (q - b.quantity) (by omega) i hi
          refine ⟨?_, c, ?_, ?_⟩
          · rwa [needAfter_cons]
          · simpa using hc
          · simpa [needAfter_cons] using hval

theorem walk_rem (bs : List Batch) (q : Int) (hq : 0 ≤ q) :
    (walkBatches bs q).2 = max (needAfter q bs (walkBatches bs q).1.length) 0 := by
  induction bs generalizing q with
  | nil =>
    simp only [walkBatches, List.length_nil, needAfter]
    simp [max_eq_left hq]
  | cons b rest ih =>
    by_cases h0 : q ≤ 0
    · have hq0 : q = 0 := le_antisymm h0 hq
      subst hq0
      simp [walkBatches, needAfter]
    · push_neg at h0
      by_cases h1 : b.quantity ≥ q
      · simp only [walkBatches, if_neg (not_le.mpr h0), if_pos h1, walk_zero]
        have : needAfter q (b :: rest) 1 = q - b.quantity := by
          simp [needAfter]
        simp only [List.length_cons, List.length_nil, Nat.zero_add, this]
        rw [max_eq_right (by omega)]
      · simp only [walkBatches, if_neg (not_le.mpr h0), if_neg h1, List.length_cons]
        rw [needAfter_cons]
        exact ih (q - b.quantity) (by omega)

theorem walk_rem_nonneg (bs : List Batch) (q : Int) (hq : 0 ≤ q) :
    0 ≤ (walkBatches bs q).2 := by
  rw [walk_rem bs q hq]
  exact le_max_right _ _

theorem walk_entries (bs : List Batch) (q : Int) (d : Int × Nat)
    (hd : d ∈ (walkBatches bs q).1) : 0 ≤ d.1 ∧ ∃ b ∈ bs, b.id = d.2 := by
  induction bs generalizing q with
  | nil => simp [walkBatches] at hd
  | cons b rest ih =>
    by_cases h0 : q ≤ 0
    · simp [walkBatches, h0] at hd
    · by_cases h1 : b.quantity ≥ q
      · simp only [walkBatches, if_neg h0, if_pos h1, walk_zero] at hd
        rcases List.mem_cons.mp hd with rfl | hd
        · exact ⟨by omega, b, List.mem_cons_self _ _, rfl⟩
        · simp at hd
      · simp only [walkBatches, if_neg h0, if_neg h1] at hd
        rcases List.mem_cons.mp hd with rfl | hd
        · exact ⟨le_refl 0, b, List.mem_cons_self _ _, rfl⟩
        · obtain ⟨hnn, c, hc, hcid⟩ := ih (q - b.quantity) hd
          exact ⟨hnn, c, List.mem_cons_of_mem b hc, hcid⟩

theorem walk_rem_pos_iff (bs : List Batch) (q : Int) (hq : 0 ≤ q)
    (hbs : ∀ b ∈ bs, 0 ≤ b.quantity) :
    0 < (walkBatches bs q).2 ↔ (bs.map Batch.quantity).sum < q := by
  induction bs generalizing q with
  | nil => simp [walkBatches]
  | cons b rest ih =>
    have hrest : 0 ≤ (rest.map Batch.quantity).sum :=
      List.sum_nonneg (by
        intro x hx
        obtain ⟨c, hc, rfl⟩ := List.mem_map.mp hx
        exact hbs c (List.mem_cons_of_mem b hc))
    have hb : 0 ≤ b.quantity := hbs b (List.mem_cons_self _ _)
    by_cases h0 : q ≤ 0
    · simp only [walkBatches, if_pos h0, List.map_cons, List.sum_cons]
      omega
    · by_cases h1 : b.quantity ≥ q
      · simp only [walkBatches, if_neg h0, if_pos h1, walk_zero, List.map_cons, List.sum_cons]
        omega
      · simp only [walkBatches, if_neg h0, if_neg h1, List.map_cons, List.sum_cons]
        have := ih (q - b.quantity) (by omega)
          (fun c hc => hbs c (List.mem_cons_of_mem b hc))
        omega

/-! ### Deduction-application lemmas -/

theorem apply_deduction_mem (inv : List Batch) (d : Int × Nat) (c : Batch)
    (hc : c ∈ apply_deduction inv d) :
    ∃ b ∈ inv, c.id = b.id ∧ c.product_id = b.product_id := by
  rw [apply_deduction] at hc
  split at hc
  · exact ⟨c, List.mem_of_mem_filter hc, rfl, rfl⟩
  · obtain ⟨b, hb, rfl⟩ := List.mem_map.mp hc
    by_cases h : (b.id == d.2) = true
    · exact ⟨b, hb, by simp [h], by simp [h]⟩
    · exact ⟨b, hb, by simp [h], by simp [h]⟩

theorem apply_deduction_pos (inv : List Batch) (d : Int × Nat) (hd : 0 ≤ d.1)
    (hinv : ∀ b ∈ inv, 0 < b.quantity) :
    ∀ c ∈ apply_deduction inv d, 0 < c.quantity := by
  intro c hc
  rw [apply_deduction] at hc
  split at hc
  · exact hinv c (List.mem_of_mem_filter hc)
  · rename_i hz
    obtain ⟨b, hb, rfl⟩ := List.mem_map.mp hc
    by_cases h : (b.id == d.2) = true
    · simp only [h, if_true]
      show 0 < d.1
      have : d.1 ≠ 0 := by simpa using hz
      omega
    · simp only [h, Bool.false_eq_true, if_false]
      exact hinv b hb

theorem apply_deductions_pos (inv : List Batch) (ds : List (Int × Nat))
    (hds : ∀ d ∈ ds, 0 ≤ d.1) (hinv : ∀ b ∈ inv, 0 < b.quantity) :
    ∀ c ∈ apply_deductions inv ds, 0 < c.quantity := by
  induction ds generalizing inv with
  | nil => exact hinv
  | cons d ds ih =>
    intro c hc
    have h1 : apply_deductions inv (d :: ds) = apply_deductions (apply_deduction inv d) ds := rfl
    rw [h1] at hc
    exact ih (apply_deduction inv d)
      (fun d2 h2 => hds d2 (List.mem_cons_of_mem _ h2))
      (apply_deduction_pos inv d (hds d (List.mem_cons_self _ _)) hinv) c hc

theorem apply_deduction_ids_sublist (inv : List Batch) (d : Int × Nat) :
    ((apply_deduction inv d).map Batch.id).Sublist (inv.map Batch.id) := by
  rw [apply_deduction]
  split
  · exact (List.filter_sublist inv).map Batch.id
  · have h : (inv.map fun b => if (b.id == d.2) = true then { b with quantity := d.1 } else b).map
        Batch.id = inv.map Batch.id := by
      rw [List.map_map]
      apply List.map_congr_left
      intro b _
      by_cases hb : (b.id == d.2) = true <;> simp [hb, Function.comp]
    rw [h]

theorem apply_deductions_ids_sublist (inv : List Batch) (ds : List (Int × Nat)) :
    ((apply_deductions inv ds).map Batch.id).Sublist (inv.map Batch.id) := by
  induction ds generalizing inv with
  | nil => exact List.Sublist.refl _
  | cons d ds ih =>
    have h1 : apply_deductions inv (d :: ds) = apply_deductions (apply_deduction inv d) ds := rfl
    rw [h1]
    exact (ih (apply_deduction inv d)).trans (apply_deduction_ids_sublist inv d)

theorem filter_filter_of_imp {p q : Batch → Bool} (l : List Batch)
    (h : ∀ b ∈ l, q b = true → p b = true) :
    (l.filter p).filter q = l.filter q := by
  induction l with
  | nil => rfl
  | cons c rest ih =>
    have hrest := fun b hb => h b (List.mem_cons_of_mem _ hb)
    by_cases hq : q c = true
    · have hp := h c (List.mem_cons_self _ _) hq
      simp [List.filter_cons, hp, hq, ih hrest]
    · by_cases hp : p c = true <;> simp [List.filter_cons, hp, hq, ih hrest]

theorem filter_map_of_fix {f : Batch → Batch} {q : Batch → Bool} (l : List Batch)
    (h : ∀ b ∈ l, (q b = true → f b = b) ∧ q (f b) = q b) :
    (l.map f).filter q = l.filter q := by
  induction l with
  | nil => rfl
  | cons c rest ih =>
    have hrest := fun b hb => h b (List.mem_cons_of_mem _ hb)
    have hc := h c (List.mem_cons_self _ _)
    by_cases hq : q c = true
    · simp [List.filter_cons, hc.2, hq, hc.1 hq, ih hrest]
    · have : q c = false := by simpa using hq
      simp [List.filter_cons, hc.2, this, ih hrest]

theorem apply_deduction_filter_other (inv : List Batch) (d : Int × Nat) (pid pid2 : Nat)
    (hne : pid2 ≠ pid)
    (hd : ∀ c ∈ inv, c.id = d.2 → c.product_id = pid) :
    (apply_deduction inv d).filter (fun b => b.product_id == pid2) =
      inv.filter (fun b => b.product_id == pid2) := by
  rw [apply_deduction]
  split
  · apply filter_filter_of_imp
    intro b hb hq
    have hbpid : b.product_id = pid2 := by simpa using hq
    by_cases h : b.id = d.2
    · exact absurd (hbpid ▸ hd b hb h) hne
    · simpa using h
  · apply filter_map_of_fix
    intro b hb
    constructor
    · intro hq
      have hbpid : b.product_id = pid2 := by simpa using hq
      have h : ¬ (b.id == d.2) = true := by
        intro h
        exact hne (hbpid ▸ hd b hb (by simpa using h))
      simp [h]
    · by_cases h : (b.id == d.2) = true <;> simp [h]

theorem apply_deductions_filter_other (inv : List Batch) (ds : List (Int × Nat))
    (pid pid2 : Nat) (hne : pid2 ≠ pid)
    (hd : ∀ d ∈ ds, ∀ c ∈ inv, c.id = d.2 → c.product_id = pid) :
    (apply_deductions inv ds).filter (fun b => b.product_id == pid2) =
      inv.filter (fun b => b.product_id == pid2) := by
  induction ds generalizing inv with
  | nil => rfl
  | cons d ds ih =>
    have h1 : apply_deductions inv (d :: ds) = apply_deductions (apply_deduction inv d) ds := rfl
    rw [h1]
    have hstep := apply_deduction_filter_other inv d pid pid2 hne
      (hd d (List.mem_cons_self _ _))
    rw [ih (apply_deduction inv d) ?_, hstep]
    intro d2 hd2 c hc hcid
    obtain ⟨b, hb, hbid, hbpid⟩ := apply_deduction_mem inv d c hc
    rw [hbpid]
    exact hd d2 (List.mem_cons_of_mem _ hd2) b hb (hbid ▸ hcid)

theorem apply_deductions_stock_other (inv : List Batch) (ds : List (Int × Nat))
    (pid pid2 : Nat) (hne : pid2 ≠ pid)
    (hd : ∀ d ∈ ds, ∀ c ∈ inv, c.id = d.2 → c.product_id = pid) :
    stock_of (apply_deductions inv ds) pid2 = stock_of inv pid2 := by
  unfold stock_of
  rw [apply_deductions_filter_other inv ds pid pid2 hne hd]

/-! ### Per-item loop lemmas -/

theorem find?_congr_mem {α : Type} {p q : α → Bool} (l : List α)
    (h : ∀ x ∈ l, p x = q x) : l.find? p = l.find? q := by
  induction l with
  | nil => rfl
  | cons x xs ih =>
    have hx := h x (List.mem_cons_self _ _)
    by_cases hp : p x = true
    · rw [List.find?_cons_of_pos _ hp, List.find?_cons_of_pos _ (hx ▸ hp)]
    · rw [List.find?_cons_of_neg _ hp, List.find?_cons_of_neg _ (hx ▸ hp)]
      exact ih (fun y hy => h y (List.mem_cons_of_mem _ hy))

theorem process_items_ok (items : List OrderItem) (ps : List Product) (inv : List Batch)
    (t : ℚ) (a : List (Nat × Int × ℚ)) (inv2 : List Batch) (t2 : ℚ)
    (a2 : List (Nat × Int × ℚ))
    (h : process_items items ps inv t a = .ok (inv2, t2, a2)) :
    t2 = t + subtotal ps items ∧ a2 = a ++ snapshots ps items := by
  induction items generalizing inv t a with
  | nil =>
    simp only [process_items, Except.ok.injEq, Prod.mk.injEq] at h
    obtain ⟨-, ht, ha⟩ := h
    simp [subtotal, snapshots, ht.symm, ha.symm]
  | cons it rest ih =>
    by_cases h0 : it.product_id = 0
    · simp [process_items, h0] at h
    · by_cases h1 : it.quantity ≤ 0
      · simp [process_items, h0, h1] at h
      · cases hfp : findProduct ps it.product_id with
        | none => simp [process_items, h0, h1, hfp] at h
        | some p =>
          by_cases h2 : 0 < (walkBatches (batches_for inv it.product_id) it.quantity).2
          · simp [process_items, h0, h1, hfp, h2] at h
          · simp only [process_items, h0, if_false, h1, hfp, h2] at h
            obtain ⟨ht, ha⟩ := ih _ _ _ h
            constructor
            · rw [ht, subtotal]
              simp only [price_of, hfp, Option.elim]
              ring
            · rw [ha, snapshots]
              simp [price_of, hfp, Option.elim]

theorem process_items_pos (items : List OrderItem) (ps : List Product) (inv : List Batch)
    (t : ℚ) (a : List (Nat × Int × ℚ)) (inv2 : List Batch) (t2 : ℚ)
    (a2 : List (Nat × Int × ℚ))
    (h : process_items items ps inv t a = .ok (inv2, t2, a2))
    (hinv : ∀ b ∈ inv, 0 < b.quantity) : ∀ b ∈ inv2, 0 < b.quantity := by
  induction items generalizing inv t a with
  | nil =>
    simp only [process_items, Except.ok.injEq, Prod.mk.injEq] at h
    obtain ⟨hi, -, -⟩ := h
    exact hi ▸ hinv
  | cons it rest ih =>
    by_cases h0 : it.product_id = 0
    · simp [process_items, h0] at h
    · by_cases h1 : it.quantity ≤ 0
      · simp [process_items, h0, h1] at h
      · cases hfp : findProduct ps it.product_id with
        | none => simp [process_items, h0, h1, hfp] at h
        | some p =>
          by_cases h2 : 0 < (walkBatches (batches_for inv it.product_id) it.quantity).2
          · simp [process_items, h0, h1, hfp, h2] at h
          · simp only [process_items, h0, if_false, h1, hfp, h2] at h
            exact ih _ _ _ h
              (apply_deductions_pos _ _
                (fun d hd => (walk_entries _ _ d hd).1) hinv)

theorem process_items_ids (items : List OrderItem) (ps : List Product) (inv : List Batch)
    (t : ℚ) (a : List (Nat × Int × ℚ)) (inv2 : List Batch) (t2 : ℚ)
    (a2 : List (Nat × Int × ℚ))
    (h : process_items items ps inv t a = .ok (inv2, t2, a2)) :
    (inv2.map Batch.id).Sublist (inv.map Batch.id) := by
  induction items generalizing inv t a with
  | nil =>
    simp only [process_items, Except.ok.injEq, Prod.mk.injEq] at h
    obtain ⟨hi, -, -⟩ := h
    exact hi ▸ List.Sublist.refl _
  | cons it rest ih =>
    by_cases h0 : it.product_id = 0
    · simp [process_items, h0] at h
    · by_cases h1 : it.quantity ≤ 0
      · simp [process_items, h0, h1] at h
      · cases hfp : findProduct ps it.product_id with
        | none => simp [process_items, h0, h1, hfp] at h
        | some p =>
          by_cases h2 : 0 < (walkBatches (batches_for inv it.product_id) it.quantity).2
          · simp [process_items, h0, h1, hfp, h2] at h
          · simp only [process_items, h0, if_false, h1, hfp, h2] at h
            exact (ih _ _ _ h).trans (apply_deductions_ids_sublist inv _)

theorem process_items_stock (items : List OrderItem) (ps : List Product) (inv : List Batch)
    (t : ℚ) (a : List (Nat × Int × ℚ))
    (hpos : ∀ b ∈ inv, 0 < b.quantity)
    (hids : (inv.map Batch.id).Nodup)
    (hshape : ∀ it ∈ items, it.product_id ≠ 0 ∧ 0 < it.quantity ∧
      (findProduct ps it.product_id).isSome = true)
    (hdist : (items.map OrderItem.product_id).Nodup) :
    (∀ it, items.find? (short_item inv) = some it →
        process_items items ps inv t a = .error (.insufficientStock it.product_id)) ∧
    (items.find? (short_item inv) = none →
        ∃ r, process_items items ps inv t a = .ok r) := by
  revert hshape hdist
  induction items generalizing inv t a hpos hids with
  | nil =>
    intro hshape hdist
    constructor
    · intro it2 hit2
      simp at hit2
    · intro hnone
      exact ⟨(inv, t, a), rfl⟩
  | cons it rest ih =>
    intro hshape hdist
    simp only [List.map_cons, List.nodup_cons] at hdist
    obtain ⟨hpid, hq, hfps⟩ := hshape it (List.mem_cons_self _ _)
    obtain ⟨p, hp⟩ := Option.isSome_iff_exists.mp hfps
    have hq0 : (0:Int) ≤ it.quantity := le_of_lt hq
    have havail_pos : ∀ b ∈ batches_for inv it.product_id, 0 ≤ b.quantity :=
      fun b hb => le_of_lt (hpos b (batches_for_mem _ _ b hb).1)
    have hsum : ((batches_for inv it.product_id).map Batch.quantity).sum
        = stock_of inv it.product_id :=
      ((batches_for_perm inv it.product_id).map Batch.quantity).sum_eq
    have hiff := walk_rem_pos_iff (batches_for inv it.product_id) it.quantity hq0 havail_pos
    by_cases hshort : short_item inv it = true
    · have hlt : stock_of inv it.product_id < it.quantity := by
        simpa [short_item] using hshort
      have hrem : 0 < (walkBatches (batches_for inv it.product_id) it.quantity).2 :=
        hiff.mpr (by rw [hsum]; exact hlt)
      have hproc : process_items (it :: rest) ps inv t a
          = .error (.insufficientStock it.product_id) := by
        simp [process_items, hpid, not_le.mpr hq, hp, hrem]
      constructor
      · intro it2 hit2
        rw [List.find?_cons_of_pos _ hshort] at hit2
        cases hit2
        exact hproc
      · intro hnone
        rw [List.find?_cons_of_pos _ hshort] at hnone
        cases hnone
    · have hge : ¬ stock_of inv it.product_id < it.quantity := by
        simpa [short_item] using hshort
      have hrem : ¬ 0 < (walkBatches (batches_for inv it.product_id) it.quantity).2 :=
        fun hcon => hge (by rw [← hsum]; exact hiff.mp hcon)
      have hd : ∀ d ∈ (walkBatches (batches_for inv it.product_id) it.quantity).1,
          ∀ c ∈ inv, c.id = d.2 → c.product_id = it.product_id := by
        intro d hdm c hc hcid
        obtain ⟨-, b, hb, hbid⟩ := walk_entries _ _ d hdm
        obtain ⟨hbinv, hbpid⟩ := batches_for_mem inv it.product_id b hb
        have hcb : c = b := List.inj_on_of_nodup_map hids hc hbinv (by rw [hcid, hbid])
        rw [hcb]
        exact hbpid
      have hpos2 : ∀ b ∈ apply_deductions inv
            (walkBatches (batches_for inv it.product_id) it.quantity).1, 0 < b.quantity :=
        apply_deductions_pos inv _ (fun d hd2 => (walk_entries _ _ d hd2).1) hpos
      have hids2 : ((apply_deductions inv
            (walkBatches (batches_for inv it.product_id) it.quantity).1).map Batch.id).Nodup :=
        List.Nodup.sublist (apply_deductions_ids_sublist inv _) hids
      have hstock2 : ∀ it2 ∈ rest,
          short_item (apply_deductions inv
            (walkBatches (batches_for inv it.product_id) it.quantity).1) it2
          = short_item inv it2 := by
        intro it2 h2
        have hne : it2.product_id ≠ it.product_id := by
          intro hcon
          exact hdist.1 (hcon ▸ List.mem_map_of_mem OrderItem.product_id h2)
        unfold short_item
        rw [apply_deductions_stock_other inv _ it.product_id it2.product_id hne hd]
      have hproc : process_items (it :: rest) ps inv t a
          = process_items rest ps
              (apply_deductions inv (walkBatches (batches_for inv it.product_id) it.quantity).1)
              (t + p.price * (it.quantity : ℚ))
              (a ++ [(it.product_id, it.quantity, p.price)]) := by
        simp [process_items, hpid, not_le.mpr hq, hp, hrem]
      have hfind : (it :: rest).find? (short_item inv)
          = rest.find? (short_item (apply_deductions inv
              (walkBatches (batches_for inv it.product_id) it.quantity).1)) := by
        rw [List.find?_cons_of_neg _ hshort]
        exact (find?_congr_mem rest hstock2).symm
      obtain ⟨ihsome, ihnone⟩ := ih
        (apply_deductions inv (walkBatches (batches_for inv it.product_id) it.quantity).1)
        (t + p.price * (it.quantity : ℚ))
        (a ++ [(it.product_id, it.quantity, p.price)]) hpos2 hids2
        (fun it2 h2 => hshape it2 (List.mem_cons_of_mem _ h2)) hdist.2
      constructor
      · intro it2 hit2
        rw [hfind] at hit2
        rw [hproc]
        exact ihsome it2 hit2
      · intro hnone
        rw [hfind] at hnone
        rw [hproc]
        exact ihnone hnone

/-! ### Endpoint-level helper lemmas -/

theorem bill_transaction_ok (db : DB) (customer_name : String) (items : List OrderItem)
    (discount tax_rate : ℚ) (now : Nat) (db2 : DB) (bid : Nat) (amt : ℚ)
    (h : bill_transaction db customer_name items discount tax_rate now
      = .ok (db2, bid, amt)) :
    ∃ inv total toins,
      process_items items db.products db.inventory 0 [] = .ok (inv, total, toins) ∧
      amt = total * (1 - discount) * (1 + tax_rate) ∧
      bid = db.next_bill_id ∧
      db2 = { db with
        inventory := inv,
        bills := db.bills ++ [⟨bid, customer_name, now, amt, discount, tax_rate⟩],
        bill_items := db.bill_items ++ insert_bill_items bid db.next_bill_item_id toins,
        next_bill_id := bid + 1,
        next_bill_item_id := db.next_bill_item_id + toins.length } := by
  unfold bill_transaction at h
  by_cases h0 : customer_name = "" ∨ items = []
  · simp [h0] at h
  · simp only [h0, if_false] at h
    cases hpi : process_items items db.products db.inventory 0 [] with
    | error e => simp [hpi] at h
    | ok r =>
      obtain ⟨inv, total, toins⟩ := r
      rw [hpi] at h
      simp only [Except.ok.injEq, Prod.mk.injEq] at h
      obtain ⟨hdb, hbid, hamt⟩ := h
      subst hbid
      subst hamt
      exact ⟨inv, total, toins, rfl, rfl, rfl, hdb.symm⟩

theorem insert_bill_items_mem (bill_id n : Nat) (l : List (Nat × Int × ℚ)) (bi : BillItem)
    (h : bi ∈ insert_bill_items bill_id n l) :
    bi.bill_id = bill_id ∧ (bi.product_id, bi.quantity, bi.price_at_purchase) ∈ l := by
  induction l generalizing n with
  | nil => cases h
  | cons x rest ih =>
    obtain ⟨pid, q, pr⟩ := x
    rcases List.mem_cons.mp h with rfl | h2
    · exact ⟨rfl, List.mem_cons_self _ _⟩
    · obtain ⟨h3, h4⟩ := ih (n + 1) h2
      exact ⟨h3, List.mem_cons_of_mem _ h4⟩

theorem snapshots_mem (ps : List Product) (items : List OrderItem) (x : Nat × Int × ℚ)
    (h : x ∈ snapshots ps items) : x.2.2 = price_of ps x.1 := by
  induction items with
  | nil => cases h
  | cons it rest ih =>
    rcases List.mem_cons.mp h with rfl | h2
    · rfl
    · exact ih h2

theorem update_product_frame (db : DB) (pid : Nat) (n : String) (de : Option String)
    (pr : ℚ) :
    (update_product db pid n de pr).1.bills = db.bills ∧
    (update_product db pid n de pr).1.bill_items = db.bill_items ∧
    (update_product db pid n de pr).1.inventory = db.inventory := by
  unfold update_product
  by_cases h : n = ""
  · simp [h]
  · simp only [h, if_false]
    split <;> exact ⟨rfl, rfl, rfl⟩

theorem apply_updates_frame (db : DB) (us : List ProductUpdate) :
    (apply_updates db us).bills = db.bills ∧
    (apply_updates db us).bill_items = db.bill_items := by
  induction us generalizing db with
  | nil => exact ⟨rfl, rfl⟩
  | cons u us ih =>
    have hstep := update_product_frame db u.pid u.name u.description u.price
    have hrec := ih (update_product db u.pid u.name u.description u.price).1
    exact ⟨hrec.1.trans hstep.1, hrec.2.trans hstep.2.1⟩

theorem map_id_of_fresh (m : List Batch) (pid : Nat) (bn : String) (q : Int)
    (hm : ∀ b ∈ m, b.product_id ≠ pid) :
    m.map (fun b : Batch => if b.product_id == pid && b.batch_number == bn
      then { b with quantity := b.quantity + q } else b) = m := by
  revert hm
  induction m with
  | nil => intro hm; rfl
  | cons c rest ih =>
    intro hm
    have hc2 : (c.product_id == pid) = false := by
      simpa using hm c (List.mem_cons_self _ _)
    simp only [List.map_cons, hc2, Bool.false_and, Bool.false_eq_true, if_false]
    rw [ih (fun b hb => hm b (List.mem_cons_of_mem _ hb))]

theorem filter_map_append_fresh (l : List Batch) (pid : Nat) (bn : String) (nid : Nat)
    (q : Int) (hfresh : ∀ b ∈ l, b.product_id ≠ pid) :
    ((l ++ [(⟨nid, pid, bn, q⟩ : Batch)]).map (fun b : Batch =>
       if b.product_id == pid && b.batch_number == bn
       then { b with quantity := b.quantity + q } else b)).filter
      (fun b : Batch => b.product_id == pid) = [(⟨nid, pid, bn, q + q⟩ : Batch)] := by
  rw [List.map_append, List.filter_append, map_id_of_fresh l pid bn q hfresh]
  have hfil : l.filter (fun b : Batch => b.product_id == pid) = [] := by
    rw [List.filter_eq_nil_iff]
    intro b hb
    simpa using hfresh b hb
  rw [hfil]
  simp

theorem length_filterMap_lt {α β : Type} (f : α → Option β) (l : List α) (x : α)
    (hx : x ∈ l) (hfx : f x = none) : (l.filterMap f).length < l.length := by
  induction l with
  | nil => cases hx
  | cons c rest ih =>
    rcases List.mem_cons.mp hx with rfl | hx2
    · rw [List.filterMap_cons, hfx]
      have := List.length_filterMap_le f rest
      simp only [List.length_cons]
      omega
    · rw [List.filterMap_cons]
      cases hfc : f c with
      | none =>
        have := ih hx2
        simp only [List.length_cons]
        omega
      | some y =>
        have := ih hx2
        simp only [List.length_cons]
        simpa using this

/-! ### Claim theorems -/

/-- C1: for every successful POST /bill, the returned total_amount and the
total_amount stored on the new bills row both equal
(sum over items of catalog price times quantity) * (1 - discount) *
(1 + tax_rate), with prices read from the catalog at billing time and with
no range restriction on discount or tax_rate. -/
theorem C1_final_total (db : DB) (customer_name : String) (items : List OrderItem)
    (discount tax_rate : ℚ) (now : Nat) (db2 : DB) (bid : Nat) (amt : ℚ)
    (h : bill_transaction db customer_name items discount tax_rate now
      = .ok (db2, bid, amt)) :
    amt = subtotal db.products items * (1 - discount) * (1 + tax_rate) ∧
    db2.bills = db.bills ++ [⟨bid, customer_name, now, amt, discount, tax_rate⟩] := by
  obtain ⟨inv, total, toins, hpi, hamt, hbid, hdb⟩ :=
    bill_transaction_ok db customer_name items discount tax_rate now db2 bid amt h
  obtain ⟨ht, -⟩ := process_items_ok items db.products db.inventory 0 [] inv total toins hpi
  constructor
  · rw [hamt, ht]
    ring
  · rw [hdb]

/-- C1 witness: a concrete successful bill on exDB with discount 2 (greater
than 1), accepted as-is with a negative total. -/
theorem C1_final_total_witness :
    ∃ db2 bid amt, bill_transaction exDB "alice" [⟨1, 10⟩] 2 0 100 = .ok (db2, bid, amt) ∧
      amt = subtotal exDB.products [⟨1, 10⟩] * (1 - 2) * (1 + 0) ∧
      db2.bills = exDB.bills ++ [⟨bid, "alice", 100, amt, 2, 0⟩] ∧ amt = -100 := by
  cases hr : bill_transaction exDB "alice" [⟨1, 10⟩] 2 0 100 with
  | error e =>
    have h2 : (bill_transaction exDB "alice" [⟨1, 10⟩] 2 0 100).toOption = none := by
      rw [hr]; rfl
    have h3 : (bill_transaction exDB "alice" [⟨1, 10⟩] 2 0 100).toOption ≠ none := by decide
    exact absurd h2 h3
  | ok r =>
    obtain ⟨db2, bid, amt⟩ := r
    obtain ⟨h1, h2⟩ := C1_final_total exDB "alice" [⟨1, 10⟩] 2 0 100 db2 bid amt hr
    refine ⟨db2, bid, amt, rfl, h1, h2, ?_⟩
    rw [h1]
    norm_num [subtotal, price_of, findProduct, exDB, List.find?]

/-- C2: per line item, the batches of the ordered product are visited in
ascending batch-id order; a visited batch is recorded with new quantity
max (quantity - remaining need) 0, i.e. fully consumed when its quantity is
at most the remaining need and reduced by exactly the remaining need when
its quantity covers it, and batches are only visited while the remaining
need is positive. -/
theorem C2_fifo_walk (inv : List Batch) (pid : Nat) (q : Int) (hq : 0 < q) :
    (batches_for inv pid).Pairwise (fun a b => a.id ≤ b.id) ∧
    (walkBatches (batches_for inv pid) q).1.length ≤ (batches_for inv pid).length ∧
    (∀ i, i < (walkBatches (batches_for inv pid) q).1.length →
      0 < needAfter q (batches_for inv pid) i ∧
      ∃ b : Batch, (batches_for inv pid)[i]? = some b ∧
        (walkBatches (batches_for inv pid) q).1[i]? =
          some (max (b.quantity - needAfter q (batches_for inv pid) i) 0, b.id)) ∧
    (walkBatches (batches_for inv pid) q).2 =
      max (needAfter q (batches_for inv pid)
        (walkBatches (batches_for inv pid) q).1.length) 0 := by
  refine ⟨batches_for_sorted inv pid, walk_len_le _ _, ?_, walk_rem _ _ (le_of_lt hq)⟩
  intro i hi
  exact walk_get _ _ (le_of_lt hq) i hi

/-- C2 witness: the spec example; batches B1(5) then B2(5), an order of 7
units removes B1 and leaves B2 at quantity 3. -/
theorem C2_fifo_walk_witness :
    ((0 : Int) < 7 ∧
      (walkBatches (batches_for exDB.inventory 1) 7).1 = [(0, 1), (3, 2)] ∧
      (generate_bill exDB "alice" [⟨1, 7⟩] 0 0 100).1.inventory = [⟨2, 1, "B2", 3⟩]) ∧
    ((batches_for exDB.inventory 1).Pairwise (fun a b => a.id ≤ b.id) ∧
      (walkBatches (batches_for exDB.inventory 1) 7).1.length ≤
        (batches_for exDB.inventory 1).length ∧
      (∀ i, i < (walkBatches (batches_for exDB.inventory 1) 7).1.length →
        0 < needAfter 7 (batches_for exDB.inventory 1) i ∧
        ∃ b : Batch, (batches_for exDB.inventory 1)[i]? = some b ∧
          (walkBatches (batches_for exDB.inventory 1) 7).1[i]? =
            some (max (b.quantity - needAfter 7 (batches_for exDB.inventory 1) i) 0, b.id)) ∧
      (walkBatches (batches_for exDB.inventory 1) 7).2 =
        max (needAfter 7 (batches_for exDB.inventory 1)
          (walkBatches (batches_for exDB.inventory 1) 7).1.length) 0) :=
  ⟨⟨by decide, by decide, by decide⟩, C2_fifo_walk exDB.inventory 1 7 (by decide)⟩

/-- C3: a POST /bill that does not return 201 leaves the observable store
exactly as before the request: the inventory, bills and bill_items tables
are unchanged (the transaction rolls back). -/
theorem C3_failure_rollback (db : DB) (customer_name : String) (items : List OrderItem)
    (discount tax_rate : ℚ) (now : Nat)
    (h : (generate_bill db customer_name items discount tax_rate now).2.1 ≠ 201) :
    (generate_bill db customer_name items discount tax_rate now).1 = db ∧
    (generate_bill db customer_name items discount tax_rate now).1.inventory
      = db.inventory ∧
    (generate_bill db customer_name items discount tax_rate now).1.bills = db.bills ∧
    (generate_bill db customer_name items discount tax_rate now).1.bill_items
      = db.bill_items := by
  unfold generate_bill at h ⊢
  cases hr : bill_transaction db customer_name items discount tax_rate now with
  | ok r =>
    obtain ⟨db1, bid, ft⟩ := r
    rw [hr] at h
    simp at h
  | error e => simp

/-- C3 witness: a two-item order on exDB2 where the first item has stock and
the second does not; the request fails and the store is untouched. -/
theorem C3_failure_rollback_witness :
    (generate_bill exDB2 "bob" [⟨1, 3⟩, ⟨2, 5⟩] 0 0 50).2.1 ≠ 201 ∧
    (generate_bill exDB2 "bob" [⟨1, 3⟩, ⟨2, 5⟩] 0 0 50).1 = exDB2 :=
  ⟨by decide,
   (C3_failure_rollback exDB2 "bob" [⟨1, 3⟩, ⟨2, 5⟩] 0 0 50 (by decide)).1⟩

/-- C4: for a well-shaped order (nonzero existing product ids, positive
integer quantities) over pairwise-distinct products on a well-formed store,
POST /bill is rejected with InsufficientStock naming the first offending
product exactly when some item requests more than the total stock of its
product; the rejection is a 400 that leaves the store untouched, and
otherwise the transaction succeeds. -/
theorem C4_insufficient_stock (db : DB) (customer_name : String) (items : List OrderItem)
    (discount tax_rate : ℚ) (now : Nat)
    (hc : customer_name ≠ "") (hne : items ≠ [])
    (hshape : ∀ it ∈ items, it.product_id ≠ 0 ∧ 0 < it.quantity ∧
      (findProduct db.products it.product_id).isSome = true)
    (hdist : (items.map OrderItem.product_id).Nodup)
    (hpos : ∀ b ∈ db.inventory, 0 < b.quantity)
    (hids : (db.inventory.map Batch.id).Nodup) :
    (∀ it, items.find? (short_item db.inventory) = some it →
      bill_transaction db customer_name items discount tax_rate now
        = .error (.insufficientStock it.product_id) ∧
      generate_bill db customer_name items discount tax_rate now = (db, 400, none)) ∧
    (items.find? (short_item db.inventory) = none →
      ∃ r, bill_transaction db customer_name items discount tax_rate now = .ok r) ∧
    ((items.find? (short_item db.inventory)).isSome = true ↔
      ∃ it ∈ items, stock_of db.inventory it.product_id < it.quantity) := by
  have h0 : ¬ (customer_name = "" ∨ items = []) := by
    rintro (h | h)
    · exact hc h
    · exact hne h
  obtain ⟨hsome, hnone⟩ := process_items_stock items db.products db.inventory 0 []
    hpos hids hshape hdist
  refine ⟨?_, ?_, ?_⟩
  · intro it hit
    have herr := hsome it hit
    constructor
    · unfold bill_transaction
      simp only [h0, if_false]
      rw [herr]
    · unfold generate_bill bill_transaction
      simp only [h0, if_false]
      rw [herr]
  · intro hno
    obtain ⟨r, hr⟩ := hnone hno
    obtain ⟨inv, total, toins⟩ := r
    refine ⟨({ db with
        inventory := inv,
        bills := db.bills ++ [⟨db.next_bill_id, customer_name, now,
          total * (1 - discount) * (1 + tax_rate), discount, tax_rate⟩],
        bill_items := db.bill_items ++
          insert_bill_items db.next_bill_id db.next_bill_item_id toins,
        next_bill_id := db.next_bill_id + 1,
        next_bill_item_id := db.next_bill_item_id + toins.length },
      db.next_bill_id, total * (1 - discount) * (1 + tax_rate)), ?_⟩
    unfold bill_transaction
    simp only [h0, if_false]
    rw [hr]
  · rw [List.find?_isSome]
    constructor
    · rintro ⟨x, hx, hpx⟩
      exact ⟨x, hx, by simpa [short_item] using hpx⟩
    · rintro ⟨x, hx, hlt⟩
      exact ⟨x, hx, by simpa [short_item] using hlt⟩

/-- C4 witness: on exDB2 the order [(1,3),(2,5)] is well-shaped over distinct
existing products, the second item exceeds the single unit of stock of
product 2, and the request fails with InsufficientStock for product 2 as a
400 with no mutation. -/
theorem C4_insufficient_stock_witness :
    bill_transaction exDB2 "bob" [⟨1, 3⟩, ⟨2, 5⟩] 0 0 50
      = .error (.insufficientStock 2) ∧
    generate_bill exDB2 "bob" [⟨1, 3⟩, ⟨2, 5⟩] 0 0 50 = (exDB2, 400, none) :=
  (C4_insufficient_stock exDB2 "bob" [⟨1, 3⟩, ⟨2, 5⟩] 0 0 50 (by decide) (by decide)
    (by decide) (by decide) (by decide) (by decide)).1 ⟨2, 5⟩ (by decide)

theorem map_bump_pos (L : List Batch) (pid : Nat) (bn : String) (iq : Int) (hiq : 0 < iq)
    (hL : ∀ c ∈ L, 0 < c.quantity) :
    ∀ b ∈ L.map (fun c : Batch => if c.product_id == pid && c.batch_number == bn
      then { c with quantity := c.quantity + iq } else c), 0 < b.quantity := by
  intro b hbm
  obtain ⟨c, hc, rfl⟩ := List.mem_map.mp hbm
  by_cases hcond : (c.product_id == pid && c.batch_number == bn) = true
  · simp only [hcond, if_true]
    show 0 < c.quantity + iq
    have := hL c hc
    omega
  · simp only [hcond, Bool.false_eq_true, if_false]
    exact hL c hc

/-- C5: every public operation preserves the invariant that every row
present in the inventory table has strictly positive quantity: billing
deletes batches that reach exactly 0 and stores positive remainders, and
inventory insertion or merge accepts only positive integer quantities. -/
theorem C5_positive_invariant (db : DB) (hpos : inv_positive db) :
    (∀ customer_name items discount tax_rate now,
      inv_positive (generate_bill db customer_name items discount tax_rate now).1) ∧
    (∀ pid bn q, inv_positive (add_or_update_inventory db pid bn q).1) ∧
    (∀ n de pr iq, inv_positive (add_product db n de pr iq).1) ∧
    (∀ pid, inv_positive (delete_product db pid).1) ∧
    (∀ iid, inv_positive (delete_inventory_batch db iid).1) ∧
    (∀ pid n de pr, inv_positive (update_product db pid n de pr).1) := by
  refine ⟨?_, ?_, ?_, ?_, ?_, ?_⟩
  · intro customer_name items discount tax_rate now
    unfold generate_bill
    cases hr : bill_transaction db customer_name items discount tax_rate now with
    | error e => exact hpos
    | ok r =>
      obtain ⟨db1, bid, ft⟩ := r
      obtain ⟨inv, total, toins, hpi, -, -, hdb⟩ :=
        bill_transaction_ok db customer_name items discount tax_rate now db1 bid ft hr
      show inv_positive db1
      rw [hdb]
      intro b hb
      exact process_items_pos items db.products db.inventory 0 [] inv total toins hpi hpos b hb
  · intro pid bn q
    intro b hb
    unfold add_or_update_inventory at hb
    by_cases h1 : pid = 0 ∨ bn = ""
    · rw [if_pos h1] at hb
      exact hpos b hb
    · rw [if_neg h1] at hb
      by_cases h2 : q ≤ 0
      · rw [if_pos h2] at hb
        exact hpos b hb
      · rw [if_neg h2] at hb
        by_cases h3 : ¬ db.products.any (fun p => p.id == pid) = true
        · rw [if_pos h3] at hb
          exact hpos b hb
        · rw [if_neg h3] at hb
          cases hf : db.inventory.find?
              (fun c => c.product_id == pid && c.batch_number == bn) with
          | some eb =>
            rw [hf] at hb
            have hb2 : b ∈ db.inventory.map (fun c =>
                if c.id == eb.id then { c with quantity := eb.quantity + q } else c) := hb
            obtain ⟨c, hc, rfl⟩ := List.mem_map.mp hb2
            by_cases hcb : (c.id == eb.id) = true
            · simp only [hcb, if_true]
              show 0 < eb.quantity + q
              have := hpos eb (List.mem_of_find?_eq_some hf)
              omega
            · simp only [hcb, Bool.false_eq_true, if_false]
              exact hpos c hc
          | none =>
            rw [hf] at hb
            have hb2 : b ∈ db.inventory ++ [(⟨db.next_inventory_id, pid, bn, q⟩ : Batch)] := hb
            rcases List.mem_append.mp hb2 with hb3 | hb3
            · exact hpos b hb3
            · rw [List.mem_singleton] at hb3
              rw [hb3]
              show 0 < q
              omega
  · intro n de pr iq
    intro b hb
    by_cases h1 : n = ""
    · simp only [add_product, if_pos h1] at hb
      exact hpos b hb
    · by_cases h2 : db.products.any (fun p => p.name == n) = true
      · simp only [add_product, if_neg h1, if_pos h2] at hb
        exact hpos b hb
      · by_cases h3 : 0 < iq
        · by_cases h4 : db.inventory.any (fun c =>
              c.product_id == db.next_product_id &&
              c.batch_number == ("INITIAL-" ++ toString db.next_product_id)) = true
          · simp only [add_product, if_neg h1, if_neg h2, if_pos h3] at hb
            simp only [h4, eq_self_iff_true, if_true] at hb
            exact map_bump_pos db.inventory db.next_product_id
              ("INITIAL-" ++ toString db.next_product_id) iq h3 hpos b hb
          · simp only [add_product, if_neg h1, if_neg h2, if_pos h3] at hb
            simp only [h4, if_false] at hb
            refine map_bump_pos _ db.next_product_id
              ("INITIAL-" ++ toString db.next_product_id) iq h3 ?_ b hb
            intro c hc
            rcases List.mem_append.mp hc with hc2 | hc2
            · exact hpos c hc2
            · rw [List.mem_singleton] at hc2
              rw [hc2]
              exact h3
        · simp only [add_product, if_neg h1, if_neg h2, if_neg h3] at hb
          exact hpos b hb
  · intro pid
    intro b hb
    unfold delete_product at hb
    by_cases h : db.products.any (fun p => p.id == pid) = true
    · rw [if_pos h] at hb
      exact hpos b hb
    · rw [if_neg h] at hb
      exact hpos b hb
  · intro iid
    intro b hb
    unfold delete_inventory_batch at hb
    by_cases h : db.inventory.any (fun c => c.id == iid) = true
    · rw [if_pos h] at hb
      have hb2 : b ∈ db.inventory.filter (fun c => c.id != iid) := hb
      exact hpos b (List.mem_of_mem_filter hb2)
    · rw [if_neg h] at hb
      have hb2 : b ∈ db.inventory.filter (fun c => c.id != iid) := hb
      exact hpos b (List.mem_of_mem_filter hb2)
  · intro pid n de pr
    intro b hb
    unfold update_product at hb
    by_cases h1 : n = ""
    · rw [if_pos h1] at hb
      exact hpos b hb
    · rw [if_neg h1] at hb
      by_cases h2 : db.products.any (fun p => p.id == pid) = true
      · rw [if_pos h2] at hb
        exact hpos b hb
      · rw [if_neg h2] at hb
        exact hpos b hb

/-- C5 witness: instantiation on exDB, plus the boundary case of the claim:
ordering the entire remaining stock succeeds with 201 and removes the
exhausted batches entirely (the last batch reaches exactly 0). -/
theorem C5_positive_invariant_witness :
    inv_positive exDB ∧
    ((generate_bill exDB "alice" [⟨1, 10⟩] 0 0 7).2.1 = 201 ∧
      (generate_bill exDB "alice" [⟨1, 10⟩] 0 0 7).1.inventory = []) ∧
    (∀ customer_name items discount tax_rate now,
      inv_positive (generate_bill exDB customer_name items discount tax_rate now).1) :=
  ⟨by unfold inv_positive; decide, ⟨by decide, by decide⟩,
   (C5_positive_invariant exDB (by unfold inv_positive; decide)).1⟩

/-- C6 evidence: DELETE /products/(id) never touches the inventory table
(the connection never enables SQLite foreign-key enforcement, so the
declared ON DELETE CASCADE does not fire): deleting a product leaves all of
its batches in place, as shown concretely on exDB where product 1 is
removed but both of its batches remain. -/
theorem C6_delete_product_no_cascade :
    (∀ (db : DB) (pid : Nat), (delete_product db pid).1.inventory = db.inventory) ∧
    ((delete_product exDB 1).1.products = [] ∧
      (delete_product exDB 1).2 = 200 ∧
      (delete_product exDB 1).1.inventory = [⟨1, 1, "B1", 5⟩, ⟨2, 1, "B2", 5⟩]) := by
  constructor
  · intro db pid
    unfold delete_product
    split
    · rfl
    · rfl
  · exact ⟨by decide, by decide, by decide⟩

/-- C7: each bill line item snapshots the catalog price at billing time
into price_at_purchase, and any later sequence of product updates changes
neither the stored bills nor the stored bill_items rows. -/
theorem C7_price_snapshot (db : DB) (customer_name : String) (items : List OrderItem)
    (discount tax_rate : ℚ) (now : Nat) (db2 : DB) (bid : Nat) (amt : ℚ)
    (h : bill_transaction db customer_name items discount tax_rate now
      = .ok (db2, bid, amt)) :
    (∀ us : List ProductUpdate,
      (apply_updates db2 us).bills = db2.bills ∧
      (apply_updates db2 us).bill_items = db2.bill_items) ∧
    (∀ bi ∈ db2.bill_items, bi ∈ db.bill_items ∨
      (bi.bill_id = bid ∧ bi.price_at_purchase = price_of db.products bi.product_id)) := by
  obtain ⟨inv, total, toins, hpi, hamt, hbid, hdb⟩ :=
    bill_transaction_ok db customer_name items discount tax_rate now db2 bid amt h
  constructor
  · intro us
    exact apply_updates_frame db2 us
  · intro bi hbi
    rw [hdb] at hbi
    have hbi2 : bi ∈ db.bill_items ++ insert_bill_items bid db.next_bill_item_id toins := hbi
    rcases List.mem_append.mp hbi2 with h2 | h2
    · exact Or.inl h2
    · right
      obtain ⟨hbill, hmem⟩ := insert_bill_items_mem bid db.next_bill_item_id toins bi h2
      refine ⟨hbill, ?_⟩
      obtain ⟨-, hsnap⟩ :=
        process_items_ok items db.products db.inventory 0 [] inv total toins hpi
      have hx : (bi.product_id, bi.quantity, bi.price_at_purchase)
          ∈ snapshots db.products items := by
        rw [hsnap] at hmem
        simpa using hmem
      exact snapshots_mem db.products items _ hx

/-- C7 witness: after a successful bill on exDB, updating the price of
product 1 to 99 changes neither the stored bills nor the bill_items rows. -/
theorem C7_price_snapshot_witness :
    ∃ db2 bid amt,
      bill_transaction exDB "alice" [⟨1, 7⟩] 0 0 100 = .ok (db2, bid, amt) ∧
      (apply_updates db2 [⟨1, "P", none, 99⟩]).bills = db2.bills ∧
      (apply_updates db2 [⟨1, "P", none, 99⟩]).bill_items = db2.bill_items := by
  cases hr : bill_transaction exDB "alice" [⟨1, 7⟩] 0 0 100 with
  | error e =>
    have h2 : (bill_transaction exDB "alice" [⟨1, 7⟩] 0 0 100).toOption = none := by
      rw [hr]; rfl
    have h3 : (bill_transaction exDB "alice" [⟨1, 7⟩] 0 0 100).toOption ≠ none := by decide
    exact absurd h2 h3
  | ok r =>
    obtain ⟨db2, bid, amt⟩ := r
    obtain ⟨hframe, -⟩ := C7_price_snapshot exDB "alice" [⟨1, 7⟩] 0 0 100 db2 bid amt hr
    exact ⟨db2, bid, amt, rfl, (hframe _).1, (hframe _).2⟩

/-- C8: GET /bills returns the stored bills exactly (a permutation of the
rendered bills table), sorted by bill_date descending, each carrying its
fields and its nested product-joined items. -/
theorem C8_get_bills (db : DB) :
    (get_bills db).Pairwise (fun a b => b.bill_date ≤ a.bill_date) ∧
    (get_bills db).Perm (db.bills.map (render_bill db)) ∧
    (∀ rb ∈ get_bills db, ∃ b ∈ db.bills,
      rb.id = b.id ∧ rb.customer_name = b.customer_name ∧ rb.bill_date = b.bill_date ∧
      rb.total_amount = b.total_amount ∧ rb.discount = b.discount ∧ rb.tax = b.tax ∧
      rb.items = bill_items_for db b.id) := by
  refine ⟨?_, ?_, ?_⟩
  · have hs := sortLe_pairwise (fun a b : Bill => decide (b.bill_date ≤ a.bill_date))
      (fun a b c hab hbc => by
        simp only [decide_eq_true_eq] at hab hbc ⊢
        exact le_trans hbc hab)
      (fun a b => by
        simp only [decide_eq_true_eq]
        exact Nat.le_total b.bill_date a.bill_date)
      db.bills
    unfold get_bills
    exact hs.map (render_bill db) (fun a b hab => of_decide_eq_true hab)
  · unfold get_bills
    exact (sortLe_perm _ db.bills).map (render_bill db)
  · intro rb hrb
    unfold get_bills at hrb
    obtain ⟨b, hb, rfl⟩ := List.mem_map.mp hrb
    have hb2 : b ∈ db.bills := (sortLe_perm _ db.bills).mem_iff.mp hb
    exact ⟨b, hb2, rfl, rfl, rfl, rfl, rfl, rfl, rfl⟩

/-- C8 witness: on exDB8 the rendered list is newest-first, and the theorem
instantiates at the rendered newest bill, whose single item joins the
product name and description. -/
theorem C8_get_bills_witness :
    ((get_bills exDB8).map RenderedBill.bill_date = [9, 5]) ∧
    (∃ b ∈ exDB8.bills,
      (⟨2, "ben", 9, 30, 0, 0, [⟨3, 10, "P", none⟩]⟩ : RenderedBill).id = b.id ∧
      (⟨2, "ben", 9, 30, 0, 0, [⟨3, 10, "P", none⟩]⟩ : RenderedBill).customer_name
        = b.customer_name ∧
      (⟨2, "ben", 9, 30, 0, 0, [⟨3, 10, "P", none⟩]⟩ : RenderedBill).bill_date
        = b.bill_date ∧
      (⟨2, "ben", 9, 30, 0, 0, [⟨3, 10, "P", none⟩]⟩ : RenderedBill).total_amount
        = b.total_amount ∧
      (⟨2, "ben", 9, 30, 0, 0, [⟨3, 10, "P", none⟩]⟩ : RenderedBill).discount
        = b.discount ∧
      (⟨2, "ben", 9, 30, 0, 0, [⟨3, 10, "P", none⟩]⟩ : RenderedBill).tax = b.tax ∧
      (⟨2, "ben", 9, 30, 0, 0, [⟨3, 10, "P", none⟩]⟩ : RenderedBill).items
        = bill_items_for exDB8 b.id) :=
  ⟨by decide,
   (C8_get_bills exDB8).2.2 ⟨2, "ben", 9, 30, 0, 0, [⟨3, 10, "P", none⟩]⟩ (by decide)⟩

/-- C9: POST /products with a positive initial_quantity q gives the new
product a single INITIAL-(id) inventory batch whose quantity is q + q, not
q: the batch is inserted with quantity q and then unconditionally
incremented by q again. -/
theorem C9_initial_batch (db : DB) (name : String) (de : Option String) (pr : ℚ)
    (q : Int) (hn : name ≠ "")
    (hdup : ¬ db.products.any (fun p => p.name == name) = true) (hq : 0 < q)
    (hfresh : ∀ b ∈ db.inventory, b.product_id ≠ db.next_product_id) :
    ∃ db2, add_product db name de pr q = (db2, 201, db.next_product_id) ∧
      db2.inventory.filter (fun b => b.product_id == db.next_product_id) =
        [⟨db.next_inventory_id, db.next_product_id,
          "INITIAL-" ++ toString db.next_product_id, q + q⟩] := by
  have h4 : ¬ db.inventory.any (fun c =>
      c.product_id == db.next_product_id &&
      c.batch_number == ("INITIAL-" ++ toString db.next_product_id)) = true := by
    intro hcon
    obtain ⟨c, hc, hcp⟩ := List.any_eq_true.mp hcon
    have hcp2 : c.product_id = db.next_product_id := by
      simp only [Bool.and_eq_true, beq_iff_eq] at hcp
      exact hcp.1
    exact hfresh c hc hcp2
  have hres : add_product db name de pr q =
      ({ db with
          products := db.products ++ [⟨db.next_product_id, name, de, pr, q⟩],
          next_product_id := db.next_product_id + 1,
          inventory := (db.inventory ++ [(⟨db.next_inventory_id, db.next_product_id,
            "INITIAL-" ++ toString db.next_product_id, q⟩ : Batch)]).map (fun c : Batch =>
              if c.product_id == db.next_product_id &&
                c.batch_number == ("INITIAL-" ++ toString db.next_product_id)
              then { c with quantity := c.quantity + q } else c),
          next_inventory_id := db.next_inventory_id + 1 },
        201, db.next_product_id) := by
    simp only [add_product, if_neg hn, if_neg hdup, if_pos hq, h4, Bool.false_eq_true,
      if_false]
  refine ⟨_, hres, ?_⟩
  exact filter_map_append_fresh db.inventory db.next_product_id
    ("INITIAL-" ++ toString db.next_product_id) db.next_inventory_id q hfresh

/-- C9 witness: adding product X with initial_quantity 4 to the empty store
yields a single INITIAL-1 batch of 8 units. -/
theorem C9_initial_batch_witness :
    ∃ db2, add_product exDB9 "X" none 5 4 = (db2, 201, exDB9.next_product_id) ∧
      db2.inventory.filter (fun b => b.product_id == exDB9.next_product_id) =
        [⟨exDB9.next_inventory_id, exDB9.next_product_id,
          "INITIAL-" ++ toString exDB9.next_product_id, 4 + 4⟩] :=
  C9_initial_batch exDB9 "X" none 5 4 (by decide) (by decide) (by decide) (by decide)

/-- C10: GET /bills silently omits any line item whose product id no longer
matches a products row (the item listing is an inner join), while the bill
itself is still returned with its stored total_amount unchanged. -/
theorem C10_join_omits (db : DB) (b : Bill) (bi : BillItem)
    (_hb : b ∈ db.bills) (hbi : bi ∈ db.bill_items) (hbill : bi.bill_id = b.id)
    (horphan : ∀ p ∈ db.products, p.id ≠ bi.product_id) :
    render_item db.products bi = none ∧
    (bill_items_for db b.id).length <
      (db.bill_items.filter (fun x => x.bill_id == b.id)).length ∧
    (render_bill db b).total_amount = b.total_amount := by
  have hfind : findProduct db.products bi.product_id = none := by
    unfold findProduct
    rw [List.find?_eq_none]
    intro p hp
    simpa using horphan p hp
  have hnone : render_item db.products bi = none := by
    unfold render_item
    rw [hfind]
  refine ⟨hnone, ?_, rfl⟩
  unfold bill_items_for
  exact length_filterMap_lt (render_item db.products) _ bi
    (List.mem_filter.mpr ⟨hbi, by simp [hbill]⟩) hnone

/-- C10 witness: on exDB10 (bill over deleted product 1) the orphaned line
item is dropped from the rendered items, which come back empty, while the
bill row keeps total 70; the Int and String columns of exDB10 agree with
the store reached operationally by billing on exDB and deleting product 1. -/
theorem C10_join_omits_witness :
    (render_item exDB10.products exItem10 = none ∧
      (bill_items_for exDB10 exBill10.id).length <
        (exDB10.bill_items.filter (fun x => x.bill_id == exBill10.id)).length ∧
      (render_bill exDB10 exBill10).total_amount = exBill10.total_amount) ∧
    (get_bills exDB10).map RenderedBill.items = [[]] ∧
    (delete_product (generate_bill exDB "alice" [⟨1, 7⟩] 0 0 100).1 1).1.products
      = exDB10.products ∧
    (delete_product (generate_bill exDB "alice" [⟨1, 7⟩] 0 0 100).1 1).1.bill_items
      = exDB10.bill_items ∧
    (delete_product (generate_bill exDB "alice" [⟨1, 7⟩] 0 0 100).1 1).1.inventory
      = exDB10.inventory :=
  ⟨C10_join_omits exDB10 exBill10 exItem10 (by decide) (by decide) (by decide) (by decide),
   by decide, by decide, by decide, by decide⟩
